import Mathlib

/-!
Verification development for the apigen-ts generator (src/main.rs and
src/templates.rs).  The embedding models characters by their Unicode
scalar values as natural numbers; the character-class tests and case
conversions mirror the ASCII behaviour of the Rust standard library and
of the convert_case crate (the identifiers handled by the generator are
ASCII).  Strings are lists of such code points.
-/

/-- Strings are modelled as lists of Unicode scalar values (code points). -/
abbrev Str := List Nat

/-- Interpret a Lean string literal as a list of code points, used to state
concrete test inputs and outputs. -/
def ofString (s : String) : Str := s.data.map Char.toNat

/-- ASCII uppercase test, mirroring Rust's char::is_uppercase on ASCII input. -/
def isUpperC (c : Nat) : Bool := decide (65 ≤ c ∧ c ≤ 90)

/-- ASCII lowercase test, mirroring Rust's char::is_lowercase on ASCII input. -/
def isLowerC (c : Nat) : Bool := decide (97 ≤ c ∧ c ≤ 122)

/-- ASCII digit test, mirroring Rust's char::is_numeric / is_ascii_digit on
ASCII input. -/
def isDigitC (c : Nat) : Bool := decide (48 ≤ c ∧ c ≤ 57)

/-- Delimiter characters of convert_case's default boundaries:
hyphen (45), underscore (95) and space (32). -/
def isDelim (c : Nat) : Bool := decide (c = 45 ∨ c = 95 ∨ c = 32)

/-- ASCII upper-casing of one character, mirroring Rust's char::to_uppercase. -/
def charToUpper (c : Nat) : Nat := if 97 ≤ c ∧ c ≤ 122 then c - 32 else c

/-- ASCII lower-casing of one character, mirroring Rust's char::to_lowercase. -/
def charToLower (c : Nat) : Nat := if 65 ≤ c ∧ c ≤ 90 then c + 32 else c

/-- Two-character boundaries of convert_case's default boundary set:
LowerUpper, UpperDigit, DigitUpper, LowerDigit and DigitLower
(UpperLower is not a default boundary). -/
def twoBoundary (x y : Nat) : Bool :=
  (isLowerC x && isUpperC y) || (isUpperC x && isDigitC y) ||
  (isDigitC x && isUpperC y) || (isLowerC x && isDigitC y) ||
  (isDigitC x && isLowerC y)

/-- Whether convert_case splits a word right after character c, given the
remaining characters: either a default two-character boundary between c and
the next character, or the Acronym boundary (upper, upper, lower), which
splits between the two upper-case characters. -/
def splitAfter (c : Nat) : List Nat → Bool
  | [] => false
  | d :: rest =>
    twoBoundary c d ||
      (match rest with
       | e :: _ => isUpperC c && isUpperC d && isLowerC e
       | [] => false)

/-- Word segmentation of convert_case with its default boundaries: the first
argument is the word accumulated so far, the second the remaining input.
Delimiter characters are dropped; empty segments never become words. -/
def splitWords : List Nat → List Nat → List (List Nat)
  | buf, [] => if buf.isEmpty then [] else [buf]
  | buf, c :: rest =>
    if isDelim c then
      (if buf.isEmpty then [] else [buf]) ++ splitWords [] rest
    else if splitAfter c rest then
      (buf ++ [c]) :: splitWords [] rest
    else
      splitWords (buf ++ [c]) rest

/-- Pattern::Capital of convert_case: first character upper-cased, the rest
lower-cased. -/
def capitalizeWord : List Nat → List Nat
  | [] => []
  | c :: cs => charToUpper c :: cs.map charToLower

/-- Join a list of words with the underscore (95) separator, as convert_case
does for snake case. -/
def joinUnderscore : List (List Nat) → List Nat
  | [] => []
  | [w] => w
  | w :: ws => w ++ 95 :: joinUnderscore ws

/-- Rust's s.to_case(Case::UpperCamel) from convert_case: split into words at
the default boundaries, capitalize each word, concatenate. -/
def to_case_upper_camel (s : Str) : Str :=
  ((splitWords [] s).map capitalizeWord).flatten

/-- Rust's s.to_case(Case::Snake) from convert_case: split into words at the
default boundaries, lower-case each word, join with underscores. -/
def to_case_snake (s : Str) : Str :=
  joinUnderscore ((splitWords [] s).map (List.map charToLower))

/-- ParserImpl::str_to_enum_variant from src/main.rs: convert to UpperCamel
case; if the first character of the cased name is numeric, rebuild it as
an underscore, the first character, an underscore, and the remainder. -/
def str_to_enum_variant (name : Str) : Str :=
  let name := to_case_upper_camel name
  if isDigitC (name.headD 0) then
    95 :: name.headD 0 :: 95 :: name.drop 1
  else
    name

/-- UTF-8 encoding length in bytes of a Unicode scalar value. -/
def utf8Len (c : Nat) : Nat :=
  if c < 128 then 1 else if c < 2048 then 2 else if c < 65536 then 3 else 4

/-- Rust's char::is_numeric (Unicode general category N: Nd, Nl, No), which
the guard of str_to_enum_variant calls.  The model covers the code points
below U+0700, where the numeric characters are exactly the ASCII digits
0-9 (48-57) and the Arabic-Indic digits U+0660-U+0669 (1632-1641); claims
that use it either evaluate at concrete code points in this range or
restrict their inputs to it. -/
def isNumericRust (c : Nat) : Bool :=
  decide ((48 ≤ c ∧ c ≤ 57) ∨ (1632 ≤ c ∧ c ≤ 1641))

/-- Panic-tracking model of ParserImpl::str_to_enum_variant from
src/main.rs: the numeric guard is Rust's Unicode is_numeric (not merely the
ASCII digit test), and the two partial operations of the numeric branch are
modelled as fallible (none = panic) — the expect("No first char") call, and
the &name[1..] byte slice, which succeeds only when byte index 1 is a
character boundary, that is, when the first character of the cased name
occupies a single UTF-8 byte. -/
def str_to_enum_variant_bytes (name : Str) : Option Str :=
  let name := to_case_upper_camel name
  if isNumericRust (name.headD 0) then
    match name with
    | [] => none
    | c :: rest =>
      if utf8Len c = 1 then some (95 :: c :: 95 :: rest) else none
  else
    some name

/-- ParserImpl::str_to_variable_name from src/main.rs: prefix an underscore
when the first character is numeric, then convert to snake case. -/
def str_to_variable_name (name : Str) : Str :=
  let name := if isDigitC (name.headD 0) then 95 :: name else name
  to_case_snake name

/-- Model of serde_json::Number: a JSON number is stored either as an
unsigned 64-bit integer, as a negative signed 64-bit integer, or as a
finite 64-bit float.  Every finite float value is an exact rational, so the
float payload is carried as a rational number. -/
inductive JsonNumber where
  | posInt (n : Nat)
  | negInt (n : Int)
  | float (q : ℚ)
deriving DecidableEq

/-- Model of serde_json's Number::as_i64: integer-stored values in the i64
range convert, float-stored values never do. -/
def JsonNumber.as_i64 : JsonNumber → Option Int
  | .posInt n => if n ≤ 9223372036854775807 then some (n : Int) else none
  | .negInt n => some n
  | .float _ => none

/-- Numeric value of a JSON number, used to state claims that speak about a
hint being numerically equal to zero. -/
def JsonNumber.numValue : JsonNumber → ℚ
  | .posInt n => (n : ℚ)
  | .negInt n => (n : ℚ)
  | .float q => q

/-- Model of oas3::spec::SchemaType, the primitive schema type tags. -/
inductive SchemaType where
  | boolean
  | integer
  | number
  | string
  | array
  | object
  | null
deriving DecidableEq

/-- Debug rendering of a SchemaType, as produced by the derived Debug
implementation used in the format! call of the unsupported-type error. -/
def schemaTypeDebug : SchemaType → Str
  | .boolean => ofString "Boolean"
  | .integer => ofString "Integer"
  | .number => ofString "Number"
  | .string => ofString "String"
  | .array => ofString "Array"
  | .object => ofString "Object"
  | .null => ofString "Null"

/-- Model of apigen_plugin_utils::error::Error as used by src/main.rs:
Codegen carries a message; MalformedSchema is the error the spec describes
for a schema that does not resolve to an object. -/
inductive Error where
  | codegen (msg : Str)
  | malformedSchema (msg : Str)
deriving DecidableEq

deriving instance DecidableEq for Except

/-- ParserImpl::map_oas3_to_output_type from src/main.rs: map a primitive
schema type plus optional format and minimum hints to a TypeScript/Rust
type name, or fail for unsupported type tags. -/
def map_oas3_to_output_type (oas3_type : SchemaType) (format : Option Str)
    (min_value : Option JsonNumber) : Except Error Str :=
  let is_unsigned : Bool :=
    match min_value with
    | some min => (min.as_i64.getD (-1)) = 0
    | none => false
  let default_int : Except Error Str := .ok (ofString "i32")
  let default_float : Except Error Str := .ok (ofString "f64")
  match oas3_type with
  | .string => .ok (ofString "String")
  | .number =>
    match format with
    | some format =>
      if format = ofString "float" then .ok (ofString "f32")
      else if format = ofString "double" then .ok (ofString "f64")
      else default_float
    | none => default_float
  | .integer =>
    match format with
    | some format =>
      if format = ofString "int32" then
        if is_unsigned then .ok (ofString "u32") else .ok (ofString "i32")
      else if format = ofString "int64" then
        if is_unsigned then .ok (ofString "u64") else .ok (ofString "i64")
      else default_int
    | none => default_int
  | .boolean => .ok (ofString "bool")
  | .array => .ok (ofString "Array")
  | t => .error (.codegen (ofString "Unsupported type: " ++ schemaTypeDebug t))

/-- Model of oas3::spec::ObjectOrReference: a schema value or a bare
reference to another named schema. -/
inductive ORef (α : Type) where
  | obj (o : α)
  | ref (r : Str)
deriving DecidableEq

/-- Modelled from the spec: apigen_plugin_utils::oas3_utils::ObjectOrReference::
object_or_error is not under src/; per §7 of the spec, an expected
object-shaped schema that is actually a bare reference raises
MalformedSchema. -/
def object_or_error : ORef α → Except Error α
  | .obj o => .ok o
  | .ref r => .error (.malformedSchema r)

/-- Field type of an IR struct field: either a direct value type name or a
reference to another generated type name (apigen_plugin_utils::types::
StructFieldType). -/
inductive StructFieldType where
  | value (t : Str)
  | ref (name : Str)
deriving DecidableEq

/-- IR struct field (apigen_plugin_utils::types::StructField). -/
structure StructField where
  name : Str
  description : Option Str
  type_ : StructFieldType
  required : Bool
  is_array : Bool
deriving DecidableEq

/-- IR struct (apigen_plugin_utils::types::Struct). -/
structure Struct where
  name : Str
  description : Option Str
  fields : List StructField
deriving DecidableEq

/-- IR enum variant (apigen_plugin_utils::types::EnumVariant). -/
structure EnumVariant where
  name : Str
  value : Option Str
deriving DecidableEq

/-- IR enum (apigen_plugin_utils::types::Enum). -/
structure Enum where
  name : Str
  description : Option Str
  variants : List EnumVariant
deriving DecidableEq

/-- Array element schema: the attributes of an inline element type that the
type mapper consumes. -/
structure ElemSchema where
  schema_type : SchemaType
  format : Option Str
  minimum : Option JsonNumber
deriving DecidableEq

/-- Inline property schema: the attributes of one declared property that the
builder consumes (type tag, hints, array element, description). -/
structure PropSchema where
  schema_type : SchemaType
  format : Option Str
  minimum : Option JsonNumber
  items : Option (ORef ElemSchema)
  description : Option Str
deriving DecidableEq

/-- Model of oas3::Schema restricted to the attributes the per-schema entry
point consumes: the ordered enumeration literal list, the ordered property
list, the required-name set and the description. -/
structure Oas3Schema where
  enum_values : List Str
  properties : List (Str × ORef PropSchema)
  required : List Str
  description : Option Str
deriving DecidableEq

/-- Classification outcome of a resolved schema: exactly one of a composite
record or an enumeration. -/
inductive StructOrEnum where
  | structK
  | enumK
deriving DecidableEq

/-- Schema classification as performed by parse_struct_or_enum in
src/main.rs: a schema with an empty enum_values list is a struct, any other
schema is an enum. -/
def classify (obj : Oas3Schema) : StructOrEnum :=
  if obj.enum_values.isEmpty then .structK else .enumK

/-- Modelled from the spec: resolution of an array element type per §4.4 —
a reference resolves to the referenced schema's generated type name, an
inline schema resolves through the type mapper. -/
def resolve_elem_type : ORef ElemSchema → Except Error StructFieldType
  | .ref r => .ok (.ref (str_to_enum_variant r))
  | .obj e => (map_oas3_to_output_type e.schema_type e.format e.minimum).map .value

/-- Modelled from the spec: construction of one IR struct field per §4.4 of
the spec (parse_struct lives in apigen_plugin_utils, not under src/): a
reference property becomes a Ref field type; an inline array property is
marked is_array with its element type resolved by the same two-way rule; any
other inline property goes through the type mapper; required is membership
in the required-name set; the field name is normalized with
str_to_variable_name; the description is copied. -/
def parse_field (required : List Str) (p : Str × ORef PropSchema) :
    Except Error StructField :=
  match p.2 with
  | .ref r =>
    .ok { name := str_to_variable_name p.1, description := none,
          type_ := .ref (str_to_enum_variant r),
          required := required.contains p.1, is_array := false }
  | .obj ps =>
    if ps.schema_type = .array then
      match ps.items with
      | some e => do
        let t ← resolve_elem_type e
        .ok { name := str_to_variable_name p.1, description := ps.description,
              type_ := t, required := required.contains p.1, is_array := true }
      | none => .error (.codegen (ofString "missing items"))
    else do
      let t ← map_oas3_to_output_type ps.schema_type ps.format ps.minimum
      .ok { name := str_to_variable_name p.1, description := ps.description,
            type_ := .value t, required := required.contains p.1,
            is_array := false }

/-- Error-propagating map over a list, used to build the ordered field list:
the first failing element aborts the whole construction (the behaviour of
Rust's ? operator inside a loop). -/
def mapE (f : α → Except Error β) : List α → Except Error (List β)
  | [] => .ok []
  | a :: as =>
    match f a with
    | .error e => .error e
    | .ok b =>
      match mapE f as with
      | .error e => .error e
      | .ok bs => .ok (b :: bs)

/-- Modelled from the spec: Parser::parse_struct (in apigen_plugin_utils, not
under src/) per §4.4 — resolve the schema to an object, build one field per
declared property in declaration order, and assemble the IR struct. -/
def parse_struct (name : Str) (schema : ORef Oas3Schema) :
    Except Error Struct := do
  let obj ← object_or_error schema
  let fields ← mapE (parse_field obj.required) obj.properties
  .ok { name := str_to_enum_variant name, description := obj.description,
        fields := fields }

/-- Modelled from the spec: construction of one IR enum variant per §4.5 —
the variant name is the normalized literal, and the original literal is kept
as an explicit value exactly when it differs from the normalized name. -/
def mk_variant (lit : Str) : EnumVariant :=
  let n := str_to_enum_variant lit
  { name := n, value := if n = lit then none else some lit }

/-- Modelled from the spec: Parser::parse_enum (in apigen_plugin_utils, not
under src/) per §4.5 — resolve the schema to an object and build one variant
per enumeration literal in declaration order. -/
def parse_enum (schema : Str × ORef Oas3Schema) : Except Error Enum := do
  let obj ← object_or_error schema.2
  .ok { name := str_to_enum_variant schema.1, description := obj.description,
        variants := obj.enum_values.map mk_variant }

/-- ParserImpl::parse_struct_or_enum from src/main.rs, parameterized over its
four collaborators (the two builders and the two template renderers, the
latter living behind handlebars): resolve the schema entry to an object,
classify it by its enum_values list, and run the corresponding
build-then-render pipeline. -/
def parse_struct_or_enum
    (parseS : Str → ORef Oas3Schema → Except Error Struct)
    (parseE : Str × ORef Oas3Schema → Except Error Enum)
    (renderS : Struct → Except Error Str)
    (renderE : Enum → Except Error Str)
    (schema : Str × ORef Oas3Schema) : Except Error Str := do
  let obj ← object_or_error schema.2
  match classify obj with
  | .structK =>
    let s ← parseS schema.1 schema.2
    renderS s
  | .enumK =>
    let e ← parseE schema
    renderE e

/-- Invariant of every word produced by the splitter: it is non-empty, free
of delimiter characters, and no default two-character boundary separates two
adjacent characters inside it. -/
def wordOk (w : List Nat) : Prop :=
  w ≠ [] ∧ (∀ c ∈ w, isDelim c = false) ∧
    w.Chain' fun x y => twoBoundary x y = false

/-- Invariant of a lower-cased word: non-empty, free of delimiters and of
upper-case characters, and free of internal two-character boundaries. -/
def lowWordOk (w : List Nat) : Prop :=
  w ≠ [] ∧ (∀ c ∈ w, isDelim c = false ∧ isUpperC c = false) ∧
    w.Chain' fun x y => twoBoundary x y = false

/-- Claim-side statement of the amended integer mapping rule: the width is
chosen by an exact format match with 32-bit default, and the unsigned
variant is selected, within a recognized width only, exactly when the
minimum hint is present and stored as an integer whose i64 value is zero. -/
def integer_spec_type (format : Option Str) (min_value : Option JsonNumber) :
    Str :=
  let zeroMin : Bool :=
    match min_value with
    | some m => decide (m.as_i64 = some 0)
    | none => false
  if format = some (ofString "int32") then
    if zeroMin then ofString "u32" else ofString "i32"
  else if format = some (ofString "int64") then
    if zeroMin then ofString "u64" else ofString "i64"
  else ofString "i32"

/-- Concrete schema used by the C8 witness: one inline integer property
followed by one reference property, with the first required. -/
def c8_struct_schema : Oas3Schema :=
  { enum_values := []
    properties :=
      [(ofString "x",
        .obj { schema_type := .integer, format := none, minimum := none,
               items := none, description := none }),
       (ofString "pet", .ref (ofString "Pet"))]
    required := [ofString "x"]
    description := none }

/-- The IR struct the code builds from the C8 witness schema. -/
def c8_struct_ir : Struct :=
  { name := ofString "Point"
    description := none
    fields :=
      [{ name := ofString "x", description := none,
         type_ := .value (ofString "i32"), required := true,
         is_array := false },
       { name := ofString "pet", description := none,
         type_ := .ref (ofString "Pet"), required := false,
         is_array := false }] }

/-- Concrete enumeration schema used by the C8 witness. -/
def c8_enum_schema : Oas3Schema :=
  { enum_values := [ofString "a", ofString "B"]
    properties := []
    required := []
    description := none }

/-- The IR enum the code builds from the C8 witness schema. -/
def c8_enum_ir : Enum :=
  { name := ofString "E"
    description := none
    variants :=
      [{ name := ofString "A", value := some (ofString "a") },
       { name := ofString "B", value := none }] }

/-- A digit code point is left unchanged by upper-casing. -/
theorem charToUpper_digit {c : Nat} (h : isDigitC c = true) : charToUpper c = c := by
  simp only [isDigitC, decide_eq_true_eq] at h
  simp only [charToUpper]
  rw [if_neg (by omega)]

/-- A digit code point is left unchanged by lower-casing. -/
theorem charToLower_digit {c : Nat} (h : isDigitC c = true) : charToLower c = c := by
  simp only [isDigitC, decide_eq_true_eq] at h
  simp only [charToLower]
  rw [if_neg (by omega)]

/-- Lower-casing never yields an upper-case character. -/
theorem isUpperC_charToLower (c : Nat) : isUpperC (charToLower c) = false := by
  simp only [charToLower, isUpperC, decide_eq_false_iff_not]
  split_ifs with h <;> omega

/-- Lower-casing never introduces a delimiter character. -/
theorem isDelim_charToLower {c : Nat} (h : isDelim c = false) :
    isDelim (charToLower c) = false := by
  simp only [isDelim, decide_eq_false_iff_not] at h ⊢
  simp only [charToLower]
  split_ifs with h2 <;> omega

/-- Lower-casing a character twice is the same as lower-casing it once. -/
theorem charToLower_idem (c : Nat) : charToLower (charToLower c) = charToLower c := by
  simp only [charToLower]
  split_ifs <;> omega

/-- Lower-casing preserves the absence of a default two-character boundary. -/
theorem twoBoundary_charToLower {x y : Nat} (h : twoBoundary x y = false) :
    twoBoundary (charToLower x) (charToLower y) = false := by
  simp only [twoBoundary, isLowerC, isUpperC, isDigitC, charToLower,
    Bool.or_eq_false_iff, Bool.and_eq_false_iff, decide_eq_false_iff_not] at h ⊢
  split_ifs at * <;> omega

/-- No default two-character boundary ever separates a character from a
following underscore. -/
theorem twoBoundary_underscore (c : Nat) : twoBoundary c 95 = false := by
  simp only [twoBoundary, isLowerC, isUpperC, isDigitC,
    Bool.or_eq_false_iff, Bool.and_eq_false_iff, decide_eq_false_iff_not]
  omega

/-- The word splitter never splits right before an underscore by a boundary
rule (the underscore is handled as a delimiter instead). -/
theorem splitAfter_underscore (c : Nat) (r : List Nat) :
    splitAfter c (95 :: r) = false := by
  cases r with
  | nil => simp [splitAfter, twoBoundary_underscore]
  | cons e t =>
    simp only [splitAfter, twoBoundary_underscore, Bool.false_or]
    have : isUpperC 95 = false := by decide
    simp [this]

/-- When the splitter does not split after c, there is no two-character
boundary between c and the next character. -/
theorem splitAfter_false_twoBoundary {c : Nat} {rest : List Nat}
    (h : splitAfter c rest = false) : ∀ d ∈ rest.head?, twoBoundary c d = false := by
  cases rest with
  | nil => simp
  | cons d t =>
    intro d' hd'
    simp only [List.head?_cons, Option.mem_def, Option.some.injEq] at hd'
    subst hd'
    cases t <;> simp only [splitAfter, Bool.or_eq_false_iff] at h <;> exact h.1

/-- Appending one character to a chain-free buffer keeps it chain-free when
the character is compatible with the buffer's last element. -/
theorem chain'_concat_of {R : Nat → Nat → Prop} {buf : List Nat} {c : Nat}
    (h2 : buf.Chain' R) (h3 : ∀ b ∈ buf.getLast?, R b c) :
    (buf ++ [c]).Chain' R := by
  rw [List.chain'_append]
  exact ⟨h2, List.chain'_singleton c, fun x hx y hy => by
    simp only [List.head?_cons, Option.mem_def, Option.some.injEq] at hy
    subst hy
    exact h3 x hx⟩

/-- Membership in the flushed-buffer singleton: the member is the non-empty
buffer itself. -/
theorem flush_mem {w buf : List Nat}
    (hw : w ∈ if buf.isEmpty then ([] : List (List Nat)) else [buf]) :
    w = buf ∧ buf ≠ [] := by
  cases buf with
  | nil => simp at hw
  | cons b bt =>
    simp only [List.isEmpty_cons, Bool.false_eq_true, if_false,
      List.mem_singleton] at hw
    exact ⟨hw, by simp⟩

/-- Every word produced by splitWords satisfies the word invariant, provided
the buffer handed in satisfies it and is compatible with the upcoming input. -/
theorem splitWords_wordOk : ∀ (cs buf : List Nat),
    (∀ c ∈ buf, isDelim c = false) →
    buf.Chain' (fun x y => twoBoundary x y = false) →
    (∀ b ∈ buf.getLast?, ∀ c ∈ cs.head?, twoBoundary b c = false) →
    ∀ w ∈ splitWords buf cs, wordOk w := by
  intro cs
  induction cs with
  | nil =>
    intro buf h1 h2 _ w hw
    simp only [splitWords] at hw
    obtain ⟨rfl, hne⟩ := flush_mem hw
    exact ⟨hne, h1, h2⟩
  | cons c rest IH =>
    intro buf h1 h2 h3 w hw
    simp only [splitWords] at hw
    by_cases hd : isDelim c
    · simp only [hd, if_true] at hw
      rcases List.mem_append.1 hw with hw | hw
      · obtain ⟨rfl, hne⟩ := flush_mem hw
        exact ⟨hne, h1, h2⟩
      · exact IH [] (by simp) (by simp) (by simp) w hw
    · simp only [hd, if_false] at hw
      have hlink : ∀ b ∈ buf.getLast?, twoBoundary b c = false := by
        intro b hb
        exact h3 b hb c (by simp)
      by_cases hs : splitAfter c rest
      · simp only [hs, if_true] at hw
        rcases List.mem_cons.1 hw with hw | hw
        · subst hw
          refine ⟨by simp, ?_, chain'_concat_of h2 hlink⟩
          intro x hx
          rcases List.mem_append.1 hx with hx | hx
          · exact h1 x hx
          · simp only [List.mem_singleton] at hx
            subst hx
            simpa using hd
        · exact IH [] (by simp) (by simp) (by simp) w hw
      · simp only [hs, if_false] at hw
        refine IH (buf ++ [c]) ?_ (chain'_concat_of h2 hlink) ?_ w hw
        · intro x hx
          rcases List.mem_append.1 hx with hx | hx
          · exact h1 x hx
          · simp only [List.mem_singleton] at hx
            subst hx
            simpa using hd
        · intro b hb d hdm
          rw [List.getLast?_concat] at hb
          simp only [Option.mem_def, Option.some.injEq] at hb
          subst hb
          exact splitAfter_false_twoBoundary (by simpa using hs) d hdm

/-- Words of the top-level splitter satisfy the word invariant. -/
theorem splitWords_wordOk_nil (s : List Nat) :
    ∀ w ∈ splitWords [] s, wordOk w :=
  splitWords_wordOk s [] (by simp) (by simp) (by simp)

/-- Lower-casing a word that satisfies the word invariant yields a word that
satisfies the lowered-word invariant. -/
theorem wordOk_map_lower {w : List Nat} (h : wordOk w) :
    lowWordOk (w.map charToLower) := by
  obtain ⟨h1, h2, h3⟩ := h
  refine ⟨by simpa using h1, ?_, ?_⟩
  · intro c hc
    rcases List.mem_map.1 hc with ⟨x, hx, rfl⟩
    exact ⟨isDelim_charToLower (h2 x hx), isUpperC_charToLower x⟩
  · rw [List.chain'_map]
    exact List.Chain'.imp (fun a b hab => twoBoundary_charToLower hab) h3

/-- Consuming a lowered word with no separator after it: the splitter flushes
the buffer extended by the whole word as one final word. -/
theorem splitWords_word_end {w : List Nat} (h : lowWordOk w) :
    ∀ buf, splitWords buf w = [buf ++ w] := by
  obtain ⟨h1, h2, h3⟩ := h
  induction w with
  | nil => exact absurd rfl h1
  | cons c w' IH =>
    intro buf
    have hdc : isDelim c = false := (h2 c (by simp)).1
    have huc : isUpperC c = false := (h2 c (by simp)).2
    cases w' with
    | nil =>
      simp [splitWords, hdc, splitAfter]
    | cons d t =>
      have hcd : twoBoundary c d = false := List.chain'_cons.1 h3 |>.1
      have hsa : splitAfter c (d :: t) = false := by
        cases t <;> simp [splitAfter, hcd, huc]
      rw [splitWords, if_neg (by simp [hdc]), if_neg (by simp [hsa])]
      rw [IH (by simp) (fun x hx => h2 x (List.mem_cons_of_mem c hx))
        (List.chain'_cons.1 h3).2 (buf ++ [c])]
      simp

/-- Consuming a lowered word followed by an underscore separator: the
splitter flushes the buffer extended by the word and continues after the
separator. -/
theorem splitWords_word_sep {w : List Nat} (h : lowWordOk w) :
    ∀ buf r, splitWords buf (w ++ 95 :: r) =
      (buf ++ w) :: splitWords [] r := by
  obtain ⟨h1, h2, h3⟩ := h
  induction w with
  | nil => exact absurd rfl h1
  | cons c w' IH =>
    intro buf r
    have hdc : isDelim c = false := (h2 c (by simp)).1
    have huc : isUpperC c = false := (h2 c (by simp)).2
    cases w' with
    | nil =>
      rw [List.cons_append, List.nil_append, splitWords,
        if_neg (by simp [hdc]), if_neg (by simp [splitAfter_underscore])]
      rw [splitWords, if_pos (by simp [isDelim])]
      simp
    | cons d t =>
      have hcd : twoBoundary c d = false := List.chain'_cons.1 h3 |>.1
      have hsa : splitAfter c (d :: (t ++ 95 :: r)) = false := by
        cases t <;> simp [splitAfter, hcd, huc]
      rw [List.cons_append, splitWords, if_neg (by simp [hdc]),
        if_neg (by simp [hsa])]
      rw [IH (by simp) (fun x hx => h2 x (List.mem_cons_of_mem c hx))
        (List.chain'_cons.1 h3).2 (buf ++ [c]) r]
      simp

/-- Unfolding of the underscore join on a list of at least two words. -/
theorem joinUnderscore_cons₂ (w w2 : List Nat) (ws : List (List Nat)) :
    joinUnderscore (w :: w2 :: ws) = w ++ 95 :: joinUnderscore (w2 :: ws) := rfl

/-- Splitting the underscore-joined concatenation of lowered words recovers
exactly those words. -/
theorem splitWords_joinUnderscore : ∀ (lws : List (List Nat)),
    (∀ w ∈ lws, lowWordOk w) →
    splitWords [] (joinUnderscore lws) = lws := by
  intro lws
  induction lws with
  | nil => intro _; simp [joinUnderscore, splitWords]
  | cons w ws IH =>
    intro h
    cases ws with
    | nil =>
      show splitWords [] (joinUnderscore [w]) = [w]
      rw [joinUnderscore]
      rw [splitWords_word_end (h w (by simp)) []]
      simp
    | cons w2 ws' =>
      rw [joinUnderscore_cons₂]
      rw [splitWords_word_sep (h w (by simp)) [] _]
      rw [IH fun x hx => h x (List.mem_cons_of_mem w hx)]
      simp

/-- Splitting ignores a leading underscore delimiter. -/
theorem splitWords_underscore_cons (cs : List Nat) :
    splitWords [] (95 :: cs) = splitWords [] cs := by
  rw [splitWords, if_pos (by simp [isDelim])]
  simp

/-- Snake casing ignores a leading underscore. -/
theorem to_case_snake_underscore (s : Str) :
    to_case_snake (95 :: s) = to_case_snake s := by
  unfold to_case_snake
  rw [splitWords_underscore_cons]

/-- Lower-casing every character of a word twice equals doing it once. -/
theorem map_charToLower_idem (l : List Nat) :
    List.map charToLower (List.map charToLower l) = List.map charToLower l := by
  rw [List.map_map]
  exact List.map_congr_left fun x _ => charToLower_idem x

/-- Snake casing is idempotent. -/
theorem to_case_snake_idem (s : Str) :
    to_case_snake (to_case_snake s) = to_case_snake s := by
  conv_lhs => rw [to_case_snake, to_case_snake]
  have hwords : ∀ w ∈ (splitWords [] s).map (List.map charToLower), lowWordOk w := by
    intro w hw
    rcases List.mem_map.1 hw with ⟨x, hx, rfl⟩
    exact wordOk_map_lower (splitWords_wordOk_nil s x hx)
  rw [splitWords_joinUnderscore _ hwords]
  rw [to_case_snake]
  congr 1
  rw [List.map_map]
  exact List.map_congr_left fun w _ => map_charToLower_idem w

/-- Unfolded form of str_to_variable_name. -/
theorem str_to_variable_name_eq (s : Str) :
    str_to_variable_name s =
      to_case_snake (if isDigitC (s.headD 0) = true then 95 :: s else s) := rfl

/-- Applying str_to_variable_name to an already snake-cased string gives the
string back. -/
theorem str_to_variable_name_snake_fix (s : Str) :
    str_to_variable_name (to_case_snake s) = to_case_snake s := by
  rw [str_to_variable_name_eq]
  by_cases h : isDigitC ((to_case_snake s).headD 0) = true
  · rw [if_pos h, to_case_snake_underscore, to_case_snake_idem]
  · rw [if_neg h, to_case_snake_idem]

/-- The field-name normalizer is idempotent. -/
theorem str_to_variable_name_idem (s : Str) :
    str_to_variable_name (str_to_variable_name s) = str_to_variable_name s := by
  rw [str_to_variable_name_eq s, str_to_variable_name_snake_fix]

/-- The splitter started on a non-empty buffer produces a first word that
extends the buffer. -/
theorem splitWords_append_head : ∀ (cs buf : List Nat), buf ≠ [] →
    ∃ t ws, splitWords buf cs = (buf ++ t) :: ws := by
  intro cs
  induction cs with
  | nil =>
    intro buf hb
    cases buf with
    | nil => exact absurd rfl hb
    | cons b bt => exact ⟨[], [], by simp [splitWords]⟩
  | cons c rest IH =>
    intro buf hb
    cases buf with
    | nil => exact absurd rfl hb
    | cons b bt =>
      rw [splitWords]
      by_cases hd : isDelim c
      · rw [if_pos hd]
        exact ⟨[], splitWords [] rest, by simp⟩
      · rw [if_neg hd]
        by_cases hs : splitAfter c rest
        · rw [if_pos hs]
          exact ⟨[c], splitWords [] rest, rfl⟩
        · rw [if_neg hs]
          obtain ⟨t, ws, h⟩ := IH ((b :: bt) ++ [c]) (by simp)
          exact ⟨[c] ++ t, ws, by rw [h]; simp⟩

/-- The first word of the splitter on input starting with a non-delimiter
character starts with that character. -/
theorem splitWords_head_first {d : Nat} (rest : List Nat)
    (hd : isDelim d = false) :
    ∃ t ws, splitWords [] (d :: rest) = (d :: t) :: ws := by
  rw [splitWords, if_neg (by simp [hd])]
  by_cases hs : splitAfter d rest
  · rw [if_pos hs]
    exact ⟨[], splitWords [] rest, rfl⟩
  · rw [if_neg hs]
    obtain ⟨t, ws, h⟩ := splitWords_append_head rest [d] (by simp)
    refine ⟨t, ws, ?_⟩
    simp only [List.nil_append]
    rw [h]
    rfl

/-- A digit is not a delimiter. -/
theorem isDelim_of_digit {d : Nat} (h : isDigitC d = true) :
    isDelim d = false := by
  simp only [isDigitC, decide_eq_true_eq] at h
  simp only [isDelim, decide_eq_false_iff_not]
  omega

/-- UpperCamel casing keeps a leading digit in first position. -/
theorem to_case_upper_camel_digit_head {d : Nat} (rest : Str)
    (h : isDigitC d = true) :
    ∃ u, to_case_upper_camel (d :: rest) = d :: u := by
  obtain ⟨t, ws, hsplit⟩ := splitWords_head_first rest (isDelim_of_digit h)
  refine ⟨List.map charToLower t ++ (List.map capitalizeWord ws).flatten, ?_⟩
  rw [to_case_upper_camel, hsplit]
  simp [capitalizeWord, charToUpper_digit h]

/-- Underscore join of words whose first word starts with a character starts
with that character. -/
theorem joinUnderscore_head_cons (c : Nat) (cs : List Nat)
    (ws : List (List Nat)) :
    ∃ u, joinUnderscore ((c :: cs) :: ws) = c :: u := by
  cases ws with
  | nil => exact ⟨cs, rfl⟩
  | cons w2 ws' => exact ⟨cs ++ 95 :: joinUnderscore (w2 :: ws'), rfl⟩

/-- On a raw string with a leading digit, the enum-variant normalizer yields
an underscore, the digit, an underscore, and a remainder. -/
theorem str_to_enum_variant_digit {d : Nat} (rest : Str)
    (h : isDigitC d = true) :
    ∃ u, str_to_enum_variant (d :: rest) = 95 :: d :: 95 :: u := by
  obtain ⟨u, hu⟩ := to_case_upper_camel_digit_head rest h
  refine ⟨u, ?_⟩
  simp only [str_to_enum_variant, hu]
  simp [h]

/-- On a raw string with a leading digit, the variable-name normalizer yields
a string starting with that digit, not with an underscore. -/
theorem str_to_variable_name_digit {d : Nat} (rest : Str)
    (h : isDigitC d = true) :
    ∃ u, str_to_variable_name (d :: rest) = d :: u := by
  obtain ⟨t, ws, hsplit⟩ := splitWords_head_first rest (isDelim_of_digit h)
  rw [str_to_variable_name_eq]
  rw [if_pos (by simpa using h)]
  rw [to_case_snake, splitWords_underscore_cons, hsplit]
  simp only [List.map_cons, charToLower_digit h]
  exact joinUnderscore_head_cons d (List.map charToLower t) _

/-- Successful bind reduction for the error monad used by the pipeline. -/
theorem except_pure_bind {α β : Type} (a : α) (k : α → Except Error β) :
    (Except.ok a >>= k) = k a := rfl

/-- Failing bind reduction for the error monad used by the pipeline. -/
theorem except_error_bind {α β : Type} (e : Error) (k : α → Except Error β) :
    ((Except.error e : Except Error α) >>= k) =
      (Except.error e : Except Error β) := rfl

/-- Elementwise reading of a successful error-propagating map: the output has
the same length as the input, and the element at every position is the
successful image of the input element at that same position. -/
theorem mapE_ok {α β : Type} {f : α → Except Error β} :
    ∀ {l : List α} {bs : List β}, mapE f l = .ok bs →
      bs.length = l.length ∧
        ∀ i (h1 : i < bs.length) (h2 : i < l.length),
          f (l.get ⟨i, h2⟩) = .ok (bs.get ⟨i, h1⟩) := by
  intro l
  induction l with
  | nil =>
    intro bs h
    simp only [mapE, Except.ok.injEq] at h
    subst h
    exact ⟨rfl, fun i h1 _ => absurd h1 (by simp)⟩
  | cons a as IH =>
    intro bs h
    simp only [mapE] at h
    cases hfa : f a with
    | error e => rw [hfa] at h; exact absurd h (by simp)
    | ok b =>
      rw [hfa] at h
      cases hms : mapE f as with
      | error e => rw [hms] at h; exact absurd h (by simp)
      | ok bs' =>
        rw [hms] at h
        simp only [Except.ok.injEq] at h
        subst h
        obtain ⟨hlen, helem⟩ := IH hms
        refine ⟨by simp [hlen], ?_⟩
        intro i h1 h2
        cases i with
        | zero => simpa using hfa
        | succ j =>
          simpa using helem j (by simpa using h1) (by simpa using h2)

/-- The code's is_unsigned test agrees with the integer-stored-zero test. -/
theorem is_unsigned_eq (m : JsonNumber) :
    (decide (m.as_i64.getD (-1) = 0)) = (decide (m.as_i64 = some 0)) := by
  rw [decide_eq_decide]
  cases m with
  | posInt n =>
    simp only [JsonNumber.as_i64]
    split_ifs with h
    · simp
    · simp
  | negInt n => simp [JsonNumber.as_i64]
  | float q => simp [JsonNumber.as_i64]

/-- C1 counterexample: the claim states that within the chosen width — the
32-bit default included — the unsigned variant is returned exactly when a
minimum hint is present and numerically equal to zero.  The code refutes
this twice: with no format and minimum 0 it returns the signed i32, and with
format int32 and a float-stored minimum whose numeric value is 0 it also
returns the signed i32. -/
theorem claim_C1_counterexample :
    map_oas3_to_output_type .integer none (some (.posInt 0)) =
        .ok (ofString "i32") ∧
      (JsonNumber.posInt 0).numValue = 0 ∧
      map_oas3_to_output_type .integer (some (ofString "int32"))
          (some (.float 0)) = .ok (ofString "i32") ∧
      (JsonNumber.float 0).numValue = 0 :=
  ⟨by decide, by norm_num [JsonNumber.numValue], by decide,
    by norm_num [JsonNumber.numValue]⟩

/-- C1 (amended): for every call of TypeMapper.map with primitive type
Integer, the width is 32-bit when the format hint is exactly int32, 64-bit
when it is exactly int64, and 32-bit by default when the format is absent or
unrecognized; within a recognized width the unsigned variant is returned
exactly when a minimum hint is present and stored as an integer whose i64
value is exactly zero (a float-stored minimum never selects unsigned), and
when the format is absent or unrecognized the result is the signed 32-bit
default regardless of the minimum hint. -/
theorem claim_C1_amended : ∀ (format : Option Str)
    (min_value : Option JsonNumber),
    map_oas3_to_output_type .integer format min_value =
      .ok (integer_spec_type format min_value) := by
  intro format min_value
  cases format with
  | none => cases min_value <;> rfl
  | some f =>
    by_cases h32 : f = ofString "int32"
    · subst h32
      cases min_value with
      | none => rfl
      | some m =>
        have hiu := is_unsigned_eq m
        cases hm : decide (m.as_i64 = some 0) <;> rw [hm] at hiu <;>
          simp [map_oas3_to_output_type, integer_spec_type, hiu, hm]
    · by_cases h64 : f = ofString "int64"
      · subst h64
        cases min_value with
        | none => simp [map_oas3_to_output_type, integer_spec_type, h32]
        | some m =>
          have hiu := is_unsigned_eq m
          cases hm : decide (m.as_i64 = some 0) <;> rw [hm] at hiu <;>
            simp [map_oas3_to_output_type, integer_spec_type, h32, hiu, hm]
      · cases min_value <;>
          simp [map_oas3_to_output_type, integer_spec_type, h32, h64]

/-- C2: TypeMapper.map returns exactly the specified target type name for
every supported combination: (Integer, int32, no minimum) maps to i32,
(Integer, int32, minimum 0) to u32, (Integer, int64, no minimum) to i64,
(Integer, int64, minimum 0) to u64, (Integer, no format, no minimum) to the
i32 default, (Number, float) to f32, (Number, double) to f64, (Number, no
format) to the f64 default, String to String, and Boolean to bool. -/
theorem claim_C2_exact_mappings :
    map_oas3_to_output_type .integer (some (ofString "int32")) none =
        .ok (ofString "i32") ∧
      map_oas3_to_output_type .integer (some (ofString "int32"))
          (some (.posInt 0)) = .ok (ofString "u32") ∧
      map_oas3_to_output_type .integer (some (ofString "int64")) none =
        .ok (ofString "i64") ∧
      map_oas3_to_output_type .integer (some (ofString "int64"))
          (some (.posInt 0)) = .ok (ofString "u64") ∧
      map_oas3_to_output_type .integer none none = .ok (ofString "i32") ∧
      map_oas3_to_output_type .number (some (ofString "float")) none =
        .ok (ofString "f32") ∧
      map_oas3_to_output_type .number (some (ofString "double")) none =
        .ok (ofString "f64") ∧
      map_oas3_to_output_type .number none none = .ok (ofString "f64") ∧
      map_oas3_to_output_type .string none none = .ok (ofString "String") ∧
      map_oas3_to_output_type .boolean none none = .ok (ofString "bool") := by
  decide

/-- C3: for every primitive type tag other than String, Number, Integer,
Boolean and Array (that is, Object or Null reached directly), TypeMapper.map
returns the Codegen error whose message names the offending type tag, and
never falls back to a default type name. -/
theorem claim_C3_unsupported_error (t : SchemaType) (format : Option Str)
    (min_value : Option JsonNumber)
    (h1 : t ≠ .string) (h2 : t ≠ .number) (h3 : t ≠ .integer)
    (h4 : t ≠ .boolean) (h5 : t ≠ .array) :
    map_oas3_to_output_type t format min_value =
      .error (.codegen (ofString "Unsupported type: " ++ schemaTypeDebug t)) := by
  cases t with
  | string => exact absurd rfl h1
  | number => exact absurd rfl h2
  | integer => exact absurd rfl h3
  | boolean => exact absurd rfl h4
  | array => exact absurd rfl h5
  | object => rfl
  | null => rfl

/-- C3 witness: the theorem applied at the Object tag with no hints. -/
theorem claim_C3_unsupported_error_witness :
    map_oas3_to_output_type .object none none =
      .error (.codegen (ofString "Unsupported type: " ++
        schemaTypeDebug .object)) :=
  claim_C3_unsupported_error .object none none (by decide) (by decide)
    (by decide) (by decide) (by decide)

/-- C4: SchemaClassifier.classify is total and exclusive — every resolvable
schema is classified as exactly one of Struct or Enum; a schema with a
non-empty enumeration literal list is classified Enum, and every other
schema is classified Struct, including a schema with zero properties and a
schema with an empty enumeration list and at least one property. -/
theorem claim_C4_classify_total_exclusive (obj : Oas3Schema) :
    (classify obj = .structK ↔ obj.enum_values = []) ∧
      (classify obj = .enumK ↔ obj.enum_values ≠ []) ∧
      (classify obj = .structK ↔ ¬classify obj = .enumK) := by
  cases h : obj.enum_values with
  | nil => simp [classify, h]
  | cons v vs => simp [classify, h]

/-- C5 counterexample: the claim states that on a raw string with a numeric
first character the field-name normalizer returns an identifier beginning
with an underscore; the code returns 1_test for 1test, which begins with the
digit 1 (code point 49), not with the underscore 95 — snake casing strips
the freshly added underscore prefix. -/
theorem claim_C5_counterexample :
    str_to_variable_name (ofString "1test") = ofString "1_test" ∧
      (str_to_variable_name (ofString "1test")).headD 0 = 49 ∧
      (str_to_variable_name (ofString "1test")).headD 0 ≠ 95 := by
  decide

/-- C5 (amended): for every raw string whose first character is a digit,
toTypeName (str_to_enum_variant) splits the leading digit into its own
segment joined by underscores, so the returned type identifier begins with
an underscore-delimited digit segment; toFieldName (str_to_variable_name)
prefixes the string with an underscore before casing, but the snake casing
consumes that leading underscore, so the returned field identifier begins
with the leading digit, not with an underscore. -/
theorem claim_C5_amended {d : Nat} (rest : Str) (h : isDigitC d = true) :
    (∃ u, str_to_enum_variant (d :: rest) = 95 :: d :: 95 :: u) ∧
      (∃ u, str_to_variable_name (d :: rest) = d :: u) :=
  ⟨str_to_enum_variant_digit rest h, str_to_variable_name_digit rest h⟩

/-- C5 amended witness: the theorem applied to the input 1test (code point
49 followed by test). -/
theorem claim_C5_amended_witness :
    (∃ u, str_to_enum_variant (49 :: ofString "test") = 95 :: 49 :: 95 :: u) ∧
      (∃ u, str_to_variable_name (49 :: ofString "test") = 49 :: u) :=
  claim_C5_amended (ofString "test") (by decide)

/-- C6: toTypeName (str_to_enum_variant) returns Test for test, Test for
TEST, TestTest for Test-Test, TestTest for test test, and for 1test the
identifier _1_Test, which begins with _1_ followed by the capitalized
remainder. -/
theorem claim_C6_round_trip :
    str_to_enum_variant (ofString "test") = ofString "Test" ∧
      str_to_enum_variant (ofString "TEST") = ofString "Test" ∧
      str_to_enum_variant (ofString "Test-Test") = ofString "TestTest" ∧
      str_to_enum_variant (ofString "test test") = ofString "TestTest" ∧
      str_to_enum_variant (ofString "1test") =
        ofString "_1_" ++ ofString "Test" := by
  decide

/-- C7 counterexample: the claim states that both normalizers are
idempotent; str_to_enum_variant is not, since it maps the string consisting
of a, space, b to AB, and maps AB to Ab. -/
theorem claim_C7_counterexample :
    str_to_enum_variant (str_to_enum_variant (ofString "a b")) ≠
      str_to_enum_variant (ofString "a b") := by
  decide

/-- C7 (amended): toFieldName (str_to_variable_name) is idempotent — for
every input string, applying it to its own output yields that output again —
and both normalizers are pure functions of their input string (they are
modelled as plain functions, so purity is inherent); toTypeName
(str_to_enum_variant) is not idempotent in general. -/
theorem claim_C7_amended (s : Str) :
    str_to_variable_name (str_to_variable_name s) = str_to_variable_name s :=
  str_to_variable_name_idem s

/-- C8: field order in a generated IR Struct exactly matches the source
schema's property declaration order, and variant order in a generated IR
Enum exactly matches the declared literal order: position by position, the
i-th field is built from the i-th property and the i-th variant from the
i-th literal, so reordering the input reorders the output identically. -/
theorem claim_C8_order :
    (∀ (name : Str) (o : Oas3Schema) (st : Struct),
        parse_struct name (.obj o) = .ok st →
          st.fields.length = o.properties.length ∧
            ∀ i (h1 : i < st.fields.length) (h2 : i < o.properties.length),
              Except.ok (st.fields.get ⟨i, h1⟩) =
                parse_field o.required (o.properties.get ⟨i, h2⟩)) ∧
      (∀ (name : Str) (o : Oas3Schema) (e : Enum),
        parse_enum (name, .obj o) = .ok e →
          e.variants.length = o.enum_values.length ∧
            ∀ i (h1 : i < e.variants.length) (h2 : i < o.enum_values.length),
              e.variants.get ⟨i, h1⟩ = mk_variant (o.enum_values.get ⟨i, h2⟩)) := by
  constructor
  · intro name o st h
    simp only [parse_struct, object_or_error, except_pure_bind] at h
    cases hms : mapE (parse_field o.required) o.properties with
    | error e =>
      rw [hms, except_error_bind] at h
      exact absurd h (by simp)
    | ok fields =>
      rw [hms, except_pure_bind] at h
      simp only [Except.ok.injEq] at h
      obtain ⟨hlen, helem⟩ := mapE_ok hms
      subst h
      exact ⟨hlen, fun i h1 h2 => (helem i h1 h2).symm⟩
  · intro name o e h
    simp only [parse_enum, object_or_error, except_pure_bind,
      Except.ok.injEq] at h
    subst h
    refine ⟨by simp, ?_⟩
    intro i h1 h2
    simp [List.getElem_map]

/-- C8 witness: both halves of the order theorem applied to concrete
schemas, with the build hypotheses discharged by evaluation. -/
theorem claim_C8_order_witness :
    c8_struct_ir.fields.length = c8_struct_schema.properties.length ∧
      c8_enum_ir.variants.length = c8_enum_schema.enum_values.length :=
  ⟨(claim_C8_order.1 (ofString "Point") c8_struct_schema c8_struct_ir
      (by decide)).1,
    (claim_C8_order.2 (ofString "E") c8_enum_schema c8_enum_ir
      (by decide)).1⟩

/-- C9: when the per-schema entry point receives a schema entry that is a
bare reference, it returns the MalformedSchema error before any
classification, IR construction, or rendering takes place — the result is
this error whatever the builder and renderer collaborators are, so no output
is produced for that schema. -/
theorem claim_C9_bare_reference_error
    (parseS : Str → ORef Oas3Schema → Except Error Struct)
    (parseE : Str × ORef Oas3Schema → Except Error Enum)
    (renderS : Struct → Except Error Str)
    (renderE : Enum → Except Error Str)
    (name r : Str) :
    parse_struct_or_enum parseS parseE renderS renderE (name, .ref r) =
      .error (.malformedSchema r) := rfl

/-- C10: the claim asserts that both normalizers never panic for every input
string; the code violates it.  For the single-character input U+0663 (the
Arabic-Indic digit three, code point 1635, two bytes in UTF-8), UpperCamel
casing leaves the string unchanged, the char::is_numeric guard admits the
character, and the &name[1..] byte slice panics because byte index 1 falls
inside the two-byte first character: the byte-tracking model of
str_to_enum_variant returns none (panic) at this input. -/
theorem claim_C10_panic_input :
    isNumericRust 1635 = true ∧ utf8Len 1635 = 2 ∧
      to_case_upper_camel [1635] = [1635] ∧
      str_to_enum_variant_bytes [1635] = none := by
  decide
